import Mathlib

/-!
Verification development for the EclipsesoundscapesVideo repository.

The embedding covers the circle-tracking loop of `stabilization.py` and the
analysis functions of `video_analysis.py`.  External collaborators are modelled
as oracles:

* `cv2.HoughCircles` output for a frame is an `Option (List CircleEstimate)`; `none`
  models the Python value `None` (zero detections).  The OpenCV API returns
  either `None` or a non-empty array, so `some []` is unreachable; where the
  embedding must still give it a meaning, the choice is noted in place.
* `moviepy` clips are a `Clip` structure: the list of frames `iter_frames(fps)`
  yields for each fps value, plus `get_frame(0)` (used for the clamp bound).
* the float values `math.cos(math.radians(i))` and `math.sin(math.radians(i))`
  are a `Trig` oracle of rational values indexed by the integer degree `i`.

Machine reals are modelled as rationals; fallible indexing returns `Option`.
-/

/-- Mean of a list of rationals: models `numpy` `.mean(axis=0)` on a 1-D array
and Python `sum(xs)/len(xs)`.  On an empty list Python raises
(`ZeroDivisionError` / nan); here total division by zero gives `0`, and every
theorem that touches this case keeps hypotheses that avoid it. -/
def listMean (l : List ℚ) : ℚ := l.sum / l.length

/-- Pointwise mean along axis 0 of a 2-D array of shape `(n, k)`: entry `j` is
the mean over `i` of `m[i][j]`.  Models `numpy` `.mean(axis=0)`. -/
def axisMean (m : List (List ℚ)) : List ℚ := m.transpose.map listMean

/-- A video frame: rows of pixels, each pixel a list of channel intensities. -/
abbrev Frame := List (List (List ℚ))

/-- A decoded video (`moviepy` `VideoFileClip`): `framesAt fps` is the frame
sequence `clip.iter_frames(fps)` yields, and `frame0` is `clip.get_frame(0)`,
whose height `frame0.length` is the clamp bound `clip.get_frame(0).shape[0]`. -/
structure Clip where
  framesAt : ℕ → List Frame
  frame0 : Frame

/-- A detected circle after `np.uint16(np.around(circles))`: center x position,
center y position and radius, as in `stabilization.py` lines 66-68. -/
structure CircleEstimate where
  x : ℕ
  y : ℕ
  radius : ℕ
  deriving DecidableEq, Repr

/-- Python `int()` applied to a float offset, as in
`x_new = x + int(r*math.cos(degree))`: truncation toward zero, modelled on the
rational value as T-division of the numerator by the denominator. -/
def pythonInt (q : ℚ) : ℤ := q.num.tdiv q.den

/-- Modelled from the spec: the spec's `round` in
`x_new = x + round(r*cos(theta))` read as nearest-integer rounding of the
offset (Mathlib `round`, i.e. `q + 1/2` floored).  This definition follows the
spec's words and is compared against the source's `pythonInt`. -/
def specRound (q : ℚ) : ℤ := round q

/-- Oracle for the float values `math.cos(math.radians i)` and
`math.sin(math.radians i)` at integer degree `i`: the trig library results are
inputs of the embedding. -/
structure Trig where
  cos : ℕ → ℚ
  sin : ℕ → ℚ

/-- One sampling coordinate of the polar samplers: given the trig oracle, the
clamp bound `h = clip.get_frame(0).shape[0]`, the tracked center `(x, y)`, the
radial step `r` and the degree `i`, compute
`x_new = x + int(r*cos)`, `y_new = y + int(r*sin)` and clamp only `y_new` to
`h - 1` when `y_new >= h`.  This is the body shared verbatim by
`find_angle_intensity`, `find_radius_intensity` and their compressed variants
(`video_analysis.py` lines 308-311, 372-375, 440-443, 508-511); no width is
even passed in, so no clamp of any kind applies to `x_new`. -/
def sampleXY (trig : Trig) (h : ℕ) (x y : ℤ) (r i : ℕ) : ℤ × ℤ :=
  let xNew : ℤ := x + pythonInt ((r : ℚ) * trig.cos i)
  let yNew : ℤ := y + pythonInt ((r : ℚ) * trig.sin i)
  (xNew, if (h : ℤ) ≤ yNew then (h : ℤ) - 1 else yNew)

/-- Indexing a Python/numpy sequence with a possibly negative integer index:
`0 ≤ i < len` reads position `i`; `-len ≤ i < 0` silently reads position
`len + i` (the opposite end); anything else raises `IndexError`, modelled as
`none`. -/
def npGetZ {α : Type} (l : List α) (i : ℤ) : Option α :=
  if 0 ≤ i then
    if i < (l.length : ℤ) then l[i.toNat]? else none
  else
    if -(l.length : ℤ) ≤ i then l[(i + l.length).toNat]? else none

/-- Pixel fetch `frame[y_new, x_new, :]` for a sampling coordinate
`c = (x_new, y_new)`: numpy indexes the row axis first. -/
def pixelAt (fr : Frame) (c : ℤ × ℤ) : Option (List ℚ) :=
  (npGetZ fr c.2).bind fun row => npGetZ row c.1

/-- Run a fallible body over a list, collecting the results in order; the first
failure aborts the whole loop.  Models a Python `for` loop that appends to an
accumulator and can raise. -/
def optMap {α β : Type} (f : α → Option β) : List α → Option (List β)
  | [] => some []
  | a :: as =>
    match f a, optMap f as with
    | some b, some bs => some (b :: bs)
    | _, _ => none

/-- State of the `stabilization.py` main loop: the accumulated `circle_coords`
list and the current value of the Python variable `coord`.  `coord` is unbound
before the first frame in Python; the embedding seeds it with the hardcoded
default, a value only readable on the unreachable `some []` detector output. -/
abbrev StabState := List CircleEstimate × CircleEstimate

/-- One iteration of the `stabilization.py` loop (lines 63-83) at one frame,
given that frame's detector output.  On `some cs` every circle of `cs` is
appended to `circle_coords` in order and `coord` ends as the last one
(`getLastD` keeps the previous `coord` when `cs` is empty, exactly as the
Python `for` loop would).  On `none`: if `circle_coords` is empty, `coord`
becomes the hardcoded `[680, 630, 280]` and nothing is appended; otherwise
`circle_coords[-1]` is re-appended and becomes `coord`. -/
def stabStep (s : StabState) (det : Option (List CircleEstimate)) : StabState :=
  match det with
  | some cs => (s.1 ++ cs, cs.getLastD s.2)
  | none =>
    match s.1.getLast? with
    | none => (s.1, ⟨680, 630, 280⟩)
    | some c => (s.1 ++ [c], c)

/-- Fold of `stabStep` over the per-frame detector outputs of a whole run. -/
def stabProc (s : StabState) : List (Option (List CircleEstimate)) → StabState
  | [] => s
  | d :: ds => stabProc (stabStep s d) ds

/-- Per-frame estimates of a `stabilization.py` run: the value of `coord` at
the end of each loop iteration (the estimate the frame's mask and the
carry-forward use), starting from state `s`. -/
def stabFrames (s : StabState) : List (Option (List CircleEstimate)) → List CircleEstimate
  | [] => []
  | d :: ds => (stabStep s d).2 :: stabFrames (stabStep s d) ds

/-- Full `stabilization.py` run over the per-frame detector outputs: final
state, whose first component is the `circle_coords` list written to
`circle_coords.txt` at end of stream (line 101). -/
def stabRun (dets : List (Option (List CircleEstimate))) : StabState :=
  stabProc ([], ⟨680, 630, 280⟩) dets

/-- The sequence of per-frame circle estimates of a `stabilization.py` run. -/
def stabEstimates (dets : List (Option (List CircleEstimate))) : List CircleEstimate :=
  stabFrames ([], ⟨680, 630, 280⟩) dets

/-- One iteration of the `find_center_circle_pos` loop (`video_analysis.py`
lines 53-57) at one frame.  On `some cs` the loop over the circles leaves `i`
bound to the last circle and exactly `[i[0], i[1]]` is appended after the loop;
earlier circles are overwritten.  On `none` nothing at all is appended.  On the
unreachable `some []` the embedding appends nothing (Python would reuse a stale
loop variable or raise `NameError`). -/
def findCenterStep (coords : List (ℕ × ℕ)) (det : Option (List CircleEstimate)) :
    List (ℕ × ℕ) :=
  match det with
  | none => coords
  | some cs =>
    match cs.getLast? with
    | none => coords
    | some c => coords ++ [(c.x, c.y)]

/-- The function `find_center_circle_pos(filename, fps)`: iterate
`clip.iter_frames(fps)`, detect circles on each frame through the detector
oracle, and collect the selected center positions. -/
def find_center_circle_pos (detect : Frame → Option (List CircleEstimate))
    (clip : Clip) (fps : ℕ) : List (ℕ × ℕ) :=
  ((clip.framesAt fps).map detect).foldl findCenterStep []

/-- Per-frame RGB triple of `find_RGB_Hues` (`video_analysis.py` lines
100-103): `frame.mean(axis=0)` collapses the row axis, a second `mean(axis=0)`
collapses the column axis, leaving one mean per channel. -/
def rgb_values (fr : Frame) : List ℚ :=
  axisMean (fr.transpose.map axisMean)

/-- The function `find_RGB_Hues(filename, fps)` (`video_analysis.py` lines
95-111, the `save` file output dropped): although the signature takes `fps`,
the loop is `clip.iter_frames(fps=1)` (line 99), a hardcoded rate.  Returns the
red, green and blue per-frame mean arrays. -/
def find_RGB_Hues (clip : Clip) (fps : ℕ) : List ℚ × List ℚ × List ℚ :=
  ((clip.framesAt 1).map fun fr => (rgb_values fr).getD 0 0,
   (clip.framesAt 1).map fun fr => (rgb_values fr).getD 1 0,
   (clip.framesAt 1).map fun fr => (rgb_values fr).getD 2 0)

/-- Intensity of row `i` of a frame (`video_analysis.py` lines 164-167):
`frame[i,:,:].mean(axis=0).mean(axis=0)`, the scalar mean of the row. -/
def row_intensity (fr : Frame) (i : ℕ) : ℚ :=
  listMean (axisMean (fr.getD i []))

/-- Intensity of column `j` of a frame (`video_analysis.py` lines 169-172):
`frame[:,j,:].mean(axis=0).mean(axis=0)`, the scalar mean of the column. -/
def col_intensity (fr : Frame) (j : ℕ) : ℚ :=
  listMean (axisMean (fr.map fun r => r.getD j []))

/-- Uncompressed per-frame row profile of `find_xy_intensities`
(`video_analysis.py` lines 163-167): one value per row index in
`range(0, y_len)`. -/
def y_profile (fr : Frame) : List ℚ :=
  (List.range fr.length).map (row_intensity fr)

/-- Uncompressed per-frame column profile of `find_xy_intensities`
(`video_analysis.py` lines 168-172): one value per column index in
`range(0, x_len)`. -/
def x_profile (fr : Frame) : List ℚ :=
  (List.range (fr.headD []).length).map (col_intensity fr)

/-- Compressed per-frame row profile of `find_xy_intensities_compressed`
(`video_analysis.py` lines 237-242): the loop body runs only when
`i % compress == 0`, so the kept indices are the filtered range. -/
def y_profile_compressed (fr : Frame) (compress : ℕ) : List ℚ :=
  (((List.range fr.length).filter fun i => i % compress == 0).map
    (row_intensity fr))

/-- Compressed per-frame column profile of `find_xy_intensities_compressed`
(`video_analysis.py` lines 243-248). -/
def x_profile_compressed (fr : Frame) (compress : ℕ) : List ℚ :=
  (((List.range (fr.headD []).length).filter fun j => j % compress == 0).map
    (col_intensity fr))

/-- The function `find_xy_intensities(filename, fps)` (`video_analysis.py`
lines 152-186, file output dropped): per-frame column profiles, per-frame row
profiles, and the two position axes `np.arange(0, len(..[0]))`.  This function
iterates `clip.iter_frames(fps)` with the caller's `fps` (line 159). -/
def find_xy_intensities (clip : Clip) (fps : ℕ) :
    List (List ℚ) × List (List ℚ) × List ℕ × List ℕ :=
  let x_total := (clip.framesAt fps).map x_profile
  let y_total := (clip.framesAt fps).map y_profile
  (x_total, y_total,
   List.range (x_total.headD []).length, List.range (y_total.headD []).length)

/-- The function `find_xy_intensities_compressed(filename, compress, fps)`
(`video_analysis.py` lines 227-259, file output dropped): like
`find_xy_intensities` but keeping every `compress`-th row/column index, and
iterating `clip.iter_frames(fps=1)` (line 233, hardcoded) whatever `fps` was
passed. -/
def find_xy_intensities_compressed (clip : Clip) (compress fps : ℕ) :
    List (List ℚ) × List (List ℚ) × List ℕ × List ℕ :=
  let x_total := (clip.framesAt 1).map (x_profile_compressed · compress)
  let y_total := (clip.framesAt 1).map (y_profile_compressed · compress)
  (x_total, y_total,
   List.range (x_total.headD []).length, List.range (y_total.headD []).length)

/-- Angular profile of one frame (`find_angle_intensity` inner loops,
`video_analysis.py` lines 304-316): for each degree `i` in `angles`, sample
the pixels at radial steps `r` in `range(1, radius)` along that ray from the
center `(x, y)` and average their channel means
(`avg = sum(intensity)/len(intensity)`).  Any failed pixel fetch aborts the
run, as the Python `IndexError` would. -/
def angle_profile (trig : Trig) (h : ℕ) (x y : ℤ) (radius : ℕ) (fr : Frame)
    (angles : List ℕ) : Option (List ℚ) :=
  optMap (fun i =>
      (optMap (fun r => (pixelAt fr (sampleXY trig h x y r i)).map listMean)
          (List.range' 1 (radius - 1))).map listMean)
    angles

/-- Radial profile of one frame (`find_radius_intensity` inner loops,
`video_analysis.py` lines 367-380): for each radial step `r` in `radii`,
sample the pixels at all 360 degrees on that ring and average their channel
means. -/
def radius_profile (trig : Trig) (h : ℕ) (x y : ℤ) (fr : Frame)
    (radii : List ℕ) : Option (List ℚ) :=
  optMap (fun r =>
      (optMap (fun i => (pixelAt fr (sampleXY trig h x y r i)).map listMean)
          (List.range 360)).map listMean)
    radii

/-- Per-frame dispatch shared by the four polar samplers: frame number `n`
selects the tracked center `int(coords[n][0]), int(coords[n][1])` (an
out-of-range `n` is the Python `IndexError`), then the frame's profile is
computed over the given index list. -/
def polar_frames (coords : List (ℕ × ℕ))
    (profile : ℤ → ℤ → Frame → Option (List ℚ)) (frames : List Frame) :
    Option (List (List ℚ)) :=
  optMap (fun p =>
      (coords[p.1]?).bind fun xy => profile (xy.1 : ℤ) (xy.2 : ℤ) p.2)
    frames.enum

/-- The function `find_angle_intensity(filename, radius, fps)`
(`video_analysis.py` lines 294-323, file output dropped): centers come from
`find_center_circle_pos(filename, fps=1)` (line 299) and frames from
`clip.iter_frames(fps=1)` (line 300), both hardcoded; each frame's profile
runs over all 360 whole degrees. -/
def find_angle_intensity (detect : Frame → Option (List CircleEstimate))
    (clip : Clip) (trig : Trig) (radius fps : ℕ) : Option (List (List ℚ)) :=
  polar_frames (find_center_circle_pos detect clip 1)
    (fun x y fr => angle_profile trig clip.frame0.length x y radius fr
      (List.range 360))
    (clip.framesAt 1)

/-- The function `find_radius_intensity(filename, radius, fps)`
(`video_analysis.py` lines 358-387, file output dropped): centers from
`find_center_circle_pos(filename, fps=1)` (line 363), frames from
`clip.iter_frames(fps=1)` (line 364); each frame's profile runs over the
radial steps `range(1, radius)`. -/
def find_radius_intensity (detect : Frame → Option (List CircleEstimate))
    (clip : Clip) (trig : Trig) (radius fps : ℕ) : Option (List (List ℚ)) :=
  polar_frames (find_center_circle_pos detect clip 1)
    (fun x y fr => radius_profile trig clip.frame0.length x y fr
      (List.range' 1 (radius - 1)))
    (clip.framesAt 1)

/-- The function `find_angle_intensity_compressed(filename, radius, compress,
fps)` (`video_analysis.py` lines 425-455): as `find_angle_intensity`, but the
per-degree body runs only when `i % compress == 0` (line 436). -/
def find_angle_intensity_compressed
    (detect : Frame → Option (List CircleEstimate)) (clip : Clip) (trig : Trig)
    (radius compress fps : ℕ) : Option (List (List ℚ)) :=
  polar_frames (find_center_circle_pos detect clip 1)
    (fun x y fr => angle_profile trig clip.frame0.length x y radius fr
      ((List.range 360).filter fun i => i % compress == 0))
    (clip.framesAt 1)

/-- The function `find_radius_intensity_compressed(filename, radius, compress,
fps)` (`video_analysis.py` lines 493-523): as `find_radius_intensity`, but the
per-radius body runs only when `r % compress == 0` (line 504). -/
def find_radius_intensity_compressed
    (detect : Frame → Option (List CircleEstimate)) (clip : Clip) (trig : Trig)
    (radius compress fps : ℕ) : Option (List (List ℚ)) :=
  polar_frames (find_center_circle_pos detect clip 1)
    (fun x y fr => radius_profile trig clip.frame0.length x y fr
      (((List.range' 1 (radius - 1)).filter fun r => r % compress == 0)))
    (clip.framesAt 1)

/-- Fixture: a 1-pixel frame with intensity 0, for concrete runs. -/
def frameA : Frame := [[[0]]]

/-- Fixture: a 1-pixel frame with intensity 1. -/
def frameB : Frame := [[[1]]]

/-- Fixture: a 1-pixel frame with intensity 2. -/
def frameC : Frame := [[[2]]]

/-- Fixture: a detector that finds circle (5, 6, 2) on `frameA`, nothing on
`frameB` (the OpenCV `None` result) and circle (9, 8, 2) on `frameC`. -/
def detectSkip : Frame → Option (List CircleEstimate) := fun fr =>
  if fr = frameA then some [⟨5, 6, 2⟩]
  else if fr = frameB then none
  else some [⟨9, 8, 2⟩]

/-- Fixture: a three-frame clip `frameA, frameB, frameC` at every fps. -/
def clipSkip : Clip := ⟨fun _ => [frameA, frameB, frameC], frameA⟩

/-- Fixture: a one-row frame of three single-channel pixels 1, 2, 3. -/
def frameWide : Frame := [[[1], [2], [3]]]

/-- Fixture: a clip holding only `frameWide`. -/
def clipWide : Clip := ⟨fun _ => [frameWide], frameWide⟩

/-- Fixture: a detector that always reports a circle centered at (0, 0), the
left edge of the frame. -/
def detectEdge : Frame → Option (List CircleEstimate) := fun _ => some [⟨0, 0, 1⟩]

/-- Fixture: trig oracle with cos 180 = -1 (the exact float value of
math.cos(math.radians(180))) and 0 elsewhere. -/
def trigEdge : Trig := ⟨fun i => if i = 180 then -1 else 0, fun _ => 0⟩

/-- Fixture: a 3-by-3 frame of single-channel pixels of intensity 2. -/
def frameSq : Frame := List.replicate 3 (List.replicate 3 [2])

/-- Fixture: a clip holding only `frameSq`. -/
def clipSq : Clip := ⟨fun _ => [frameSq], frameSq⟩

/-- Fixture: a detector that always reports a circle centered at (1, 1). -/
def detectSq : Frame → Option (List CircleEstimate) := fun _ => some [⟨1, 1, 1⟩]

/-- Fixture: the all-zero trig oracle (every ray collapses onto the center). -/
def trigZero : Trig := ⟨fun _ => 0, fun _ => 0⟩

/-- Fixture: trig oracle whose cosine at 45 degrees is 0.7071067811865476, the
double-precision value of math.cos(math.radians(45)); 0 elsewhere. -/
def trigFortyFive : Trig :=
  ⟨fun i => if i = 45 then 7071067811865476 / 10000000000000000 else 0,
   fun _ => 0⟩

/-- Fixture: a ten-element row of distinct intensities 10..19. -/
def rowTen : List ℚ := [10, 11, 12, 13, 14, 15, 16, 17, 18, 19]

/-- Fixture: the expected compressed angular profile row for `clipSq` at
compress = 7: one entry of intensity 2 per kept degree. -/
def rowSq52 : List ℚ :=
  ((List.range 360).filter fun i => i % 7 == 0).map fun _ => 2

/-- Fixture: the expected angular profile row for `clipWide`: intensity 3 at
degree 180 (read through the silent wrap-around), 1 elsewhere. -/
def rowWide360 : List ℚ :=
  (List.range 360).map fun i => if i = 180 then 3 else 1

theorem optMap_length {α β : Type} {f : α → Option β} :
    ∀ {l : List α} {bs : List β}, optMap f l = some bs → bs.length = l.length := by
  intro l
  induction l with
  | nil =>
    intro bs h
    simp only [optMap, Option.some_inj] at h
    subst h
    rfl
  | cons a as ih =>
    intro bs h
    simp only [optMap] at h
    cases hfa : f a with
    | none => rw [hfa] at h; exact absurd h (by simp)
    | some b =>
      rw [hfa] at h
      cases hrest : optMap f as with
      | none => rw [hrest] at h; exact absurd h (by simp)
      | some bs2 =>
        rw [hrest] at h
        simp only [Option.some_inj] at h
        subst h
        simp [ih hrest]

theorem optMap_mem {α β : Type} {f : α → Option β} :
    ∀ {l : List α} {bs : List β}, optMap f l = some bs →
      ∀ {b : β}, b ∈ bs → ∃ a, a ∈ l ∧ f a = some b := by
  intro l
  induction l with
  | nil =>
    intro bs h b hb
    simp only [optMap, Option.some_inj] at h
    subst h
    simp at hb
  | cons a as ih =>
    intro bs h b hb
    simp only [optMap] at h
    cases hfa : f a with
    | none => rw [hfa] at h; exact absurd h (by simp)
    | some b0 =>
      rw [hfa] at h
      cases hrest : optMap f as with
      | none => rw [hrest] at h; exact absurd h (by simp)
      | some bs2 =>
        rw [hrest] at h
        simp only [Option.some_inj] at h
        subst h
        rcases List.mem_cons.mp hb with rfl | hb2
        · exact ⟨a, List.mem_cons_self a as, hfa⟩
        · obtain ⟨a2, ha2, hfa2⟩ := ih hrest hb2
          exact ⟨a2, List.mem_cons_of_mem a ha2, hfa2⟩

theorem filter_mod_range (c : ℕ) (hc : 0 < c) :
    ∀ n, (List.range n).filter (fun i => i % c == 0) =
      (List.range ((n + c - 1) / c)).map (· * c) := by
  intro n
  induction n with
  | zero =>
    have h0 : (c - 1) / c = 0 := Nat.div_eq_of_lt (by omega)
    simp [h0]
  | succ n ih =>
    rw [List.range_succ, List.filter_append, ih]
    by_cases hd : c ∣ n
    · obtain ⟨a, rfl⟩ := hd
      have h1 : (c * a + c - 1) / c = a := by
        have e : c * a + c - 1 = c * a + (c - 1) := by omega
        rw [e, Nat.mul_add_div hc, Nat.div_eq_of_lt (by omega)]
        omega
      have h2 : (c * a + 1 + c - 1) / c = a + 1 := by
        have e : c * a + 1 + c - 1 = c * a + c := by omega
        rw [e, Nat.add_div_right _ hc, Nat.mul_div_cancel_left a hc]
      rw [h1, h2, List.range_succ, List.map_append]
      have h3 : (c * a % c == 0) = true := by simp [Nat.mul_mod_right]
      simp [List.filter_cons, h3, Nat.mul_comm]
    · have hne : n % c ≠ 0 := fun h => hd (Nat.dvd_of_mod_eq_zero h)
      have hn : n ≠ 0 := by rintro rfl; exact hd (dvd_zero c)
      have h1 : (n + 1 + c - 1) / c = (n + c - 1) / c := by
        have e1 : n + c - 1 = (n - 1) + c := by omega
        have e2 : n + 1 + c - 1 = n + c := by omega
        have e3 : n = (n - 1) + 1 := by omega
        rw [e1, e2, Nat.add_div_right _ hc, Nat.add_div_right _ hc]
        rw [show n / c = ((n - 1) + 1) / c by rw [← e3], Nat.succ_div,
          if_neg (by rw [← e3]; exact fun h => hd h)]
      have h4 : (n % c == 0) = false := by simpa using hne
      rw [h1]
      simp [List.filter_cons, h4]

theorem length_filter_mod_range (c : ℕ) (hc : 0 < c) (n : ℕ) :
    ((List.range n).filter (fun i => i % c == 0)).length = (n + c - 1) / c := by
  rw [filter_mod_range c hc n, List.length_map, List.length_range]

theorem length_filter_mod_range1 (c : ℕ) (hc : 0 < c) :
    ∀ m, ((List.range' 1 m).filter (fun r => r % c == 0)).length = m / c := by
  intro m
  induction m with
  | zero => simp
  | succ m ih =>
    have hcat : List.range' 1 (m + 1) = List.range' 1 m ++ [1 + m] := by
      rw [List.range'_eq_map_range, List.range'_eq_map_range, List.range_succ,
        List.map_append]
      rfl
    rw [hcat, List.filter_append, List.length_append, ih, Nat.succ_div]
    by_cases hd : c ∣ m + 1
    · have hm : ((1 + m) % c == 0) = true := by
        simp [Nat.add_comm 1 m, Nat.mod_eq_zero_of_dvd hd]
      simp [List.filter_cons, hm, hd]
    · have hm : ((1 + m) % c == 0) = false := by
        simp only [beq_eq_false_iff_ne, ne_eq]
        rw [Nat.add_comm 1 m]
        exact fun h => hd (Nat.dvd_of_mod_eq_zero h)
      simp [List.filter_cons, hm, hd]

theorem lt_ceil_div_iff {k n c : ℕ} (hc : 0 < c) :
    k < (n + c - 1) / c ↔ k * c < n := by
  rw [Nat.lt_iff_add_one_le, Nat.le_div_iff_mul_le hc, Nat.succ_mul]
  have e : ∀ a : ℕ, (a + c ≤ n + c - 1 ↔ a < n) := by omega
  exact e (k * c)

theorem pythonInt_eq (q : ℚ) : pythonInt q = if 0 ≤ q then ⌊q⌋ else ⌈q⌉ := by
  by_cases hq : 0 ≤ q
  · rw [if_pos hq, Rat.floor_def]
    exact Int.tdiv_eq_ediv (Rat.num_nonneg.mpr hq) (Int.ofNat_nonneg _)
  · rw [if_neg hq]
    have hq2 : 0 ≤ -q := by linarith [lt_of_not_le hq]
    have h1 : pythonInt q = -pythonInt (-q) := by
      simp [pythonInt, Rat.neg_num, Rat.neg_den, Int.neg_tdiv]
    have h2 : pythonInt (-q) = ⌊-q⌋ := by
      rw [Rat.floor_def]
      exact Int.tdiv_eq_ediv (Rat.num_nonneg.mpr hq2) (Int.ofNat_nonneg _)
    rw [h1, h2, Int.floor_neg, neg_neg]

theorem getElem?_range_eq (n k : ℕ) :
    (List.range n)[k]? = if k < n then some k else none := by
  by_cases h : k < n
  · rw [if_pos h, List.getElem?_range h]
  · rw [if_neg h,
      List.getElem?_eq_none (by simpa [List.length_range] using Nat.le_of_not_lt h)]

theorem stabStep_inv {s : StabState} (d : Option (List CircleEstimate))
    (h1 : s.1 = [] → s.2 = ⟨680, 630, 280⟩)
    (h2 : ∀ c, s.1.getLast? = some c → s.2 = c) :
    ((stabStep s d).1 = [] → (stabStep s d).2 = ⟨680, 630, 280⟩) ∧
    (∀ c, (stabStep s d).1.getLast? = some c → (stabStep s d).2 = c) := by
  cases d with
  | some cs =>
    constructor
    · intro hemp
      simp only [stabStep] at hemp ⊢
      rcases List.append_eq_nil.mp hemp with ⟨he1, he2⟩
      subst he2
      simpa [List.getLastD_eq_getLast?] using h1 he1
    · intro c hc
      simp only [stabStep] at hc ⊢
      rw [List.getLast?_append] at hc
      cases hcs : cs.getLast? with
      | some c2 =>
        rw [hcs] at hc
        simp only [Option.or, Option.some_inj] at hc
        subst hc
        simp [List.getLastD_eq_getLast?, hcs]
      | none =>
        rw [hcs] at hc
        simp only [Option.or] at hc
        rw [List.getLastD_eq_getLast?, hcs]
        exact h2 c hc
  | none =>
    cases hL : s.1.getLast? with
    | none =>
      have hemp : s.1 = [] := List.getLast?_eq_none_iff.mp hL
      constructor
      · intro _
        simp [stabStep, hL]
      · intro c hc
        simp only [stabStep, hL] at hc
        simp at hc

    | some g =>
      constructor
      · intro hemp
        simp only [stabStep, hL] at hemp
        simp at hemp
      · intro c hc
        simp only [stabStep, hL] at hc ⊢
        rw [List.getLast?_concat] at hc
        exact Option.some_inj.mp hc

theorem stabStep_none_coord {s : StabState}
    (h1 : s.1 = [] → s.2 = ⟨680, 630, 280⟩)
    (h2 : ∀ c, s.1.getLast? = some c → s.2 = c) :
    (stabStep s none).2 = s.2 := by
  cases hL : s.1.getLast? with
  | none =>
    simp only [stabStep, hL]
    exact (h1 (List.getLast?_eq_none_iff.mp hL)).symm
  | some g =>
    simp only [stabStep, hL]
    exact (h2 g hL).symm

theorem stabFrames_carry :
    ∀ (ds : List (Option (List CircleEstimate))) (s : StabState),
      (s.1 = [] → s.2 = ⟨680, 630, 280⟩) →
      (∀ c, s.1.getLast? = some c → s.2 = c) →
      ∀ k : ℕ, k ≠ 0 → ds[k]? = some none →
      (stabFrames s ds)[k]? = (stabFrames s ds)[k - 1]? := by
  intro ds
  induction ds with
  | nil =>
    intro s h1 h2 k hk hdk
    simp at hdk
  | cons d ds2 ih =>
    intro s h1 h2 k hk hdk
    obtain ⟨inv1, inv2⟩ := stabStep_inv d h1 h2
    cases k with
    | zero => exact absurd rfl hk
    | succ k2 =>
      have hdk2 : ds2[k2]? = some none := by simpa using hdk
      cases k2 with
      | zero =>
        cases ds2 with
        | nil => simp at hdk2
        | cons d2 ds3 =>
          have hd2 : d2 = none := by simpa using hdk2
          subst hd2
          simp only [stabFrames, List.getElem?_cons_succ, List.getElem?_cons_zero,
            Nat.add_sub_cancel]
          rw [stabStep_none_coord inv1 inv2]
      | succ k3 =>
        have hrec := ih (stabStep s d) inv1 inv2 (k3 + 1) (by omega) hdk2
        simpa [stabFrames] using hrec

/-- Carry-forward of the `stabilization.py` tracker: whenever the detector
returns zero circles (`None`) at a frame `k > 0`, the estimate recorded for
frame `k` equals the estimate recorded for frame `k - 1` exactly.  This is
the behavior `find_center_circle_pos` lacks (see `c1_missing_fallback_eval`). -/
theorem stabilization_carry_forward (dets : List (Option (List CircleEstimate)))
    (k : ℕ) (hk : k ≠ 0) (hdet : dets[k]? = some none) :
    (stabEstimates dets)[k]? = (stabEstimates dets)[k - 1]? :=
  stabFrames_carry dets ([], ⟨680, 630, 280⟩) (fun _ => rfl)
    (fun c hc => by simp at hc) k hk hdet

/-- Closed instance of `stabilization_carry_forward` at a concrete run. -/
theorem stabilization_carry_forward_instance :
    (stabEstimates [some [⟨1, 2, 3⟩], none])[1]? =
      (stabEstimates [some [⟨1, 2, 3⟩], none])[0]? :=
  stabilization_carry_forward [some [⟨1, 2, 3⟩], none] 1 (by decide) (by decide)

theorem stabProc_rows :
    ∀ (ds : List (Option (List CircleEstimate))) (s : StabState),
      s.1 ≠ [] →
      (∀ c, s.1.getLast? = some c → s.2 = c) →
      (∀ d ∈ ds, (∃ c, d = some [c]) ∨ d = none) →
      (stabProc s ds).1 = s.1 ++ stabFrames s ds := by
  intro ds
  induction ds with
  | nil =>
    intro s hne h2 hall
    simp [stabProc, stabFrames]
  | cons d ds2 ih =>
    intro s hne h2 hall
    rcases hall d (List.mem_cons_self d ds2) with ⟨c, rfl⟩ | rfl
    · have hstep : stabStep s (some [c]) = (s.1 ++ [c], c) := by
        simp [stabStep, List.getLastD_eq_getLast?]
      show (stabProc (stabStep s (some [c])) ds2).1 = _
      rw [ih (stabStep s (some [c])) (by simp [hstep]) (by
          intro c2 hc2
          rw [hstep] at hc2 ⊢
          rw [List.getLast?_concat] at hc2
          exact Option.some_inj.mp hc2)
        (fun d hd => hall d (List.mem_cons_of_mem _ hd))]
      rw [hstep]
      simp [stabFrames, hstep]
    · obtain ⟨g, hg⟩ : ∃ g, s.1.getLast? = some g := by
        cases hL : s.1.getLast? with
        | none => exact absurd (List.getLast?_eq_none_iff.mp hL) hne
        | some g => exact ⟨g, rfl⟩
      have hstep : stabStep s none = (s.1 ++ [g], g) := by
        simp [stabStep, hg]
      show (stabProc (stabStep s none) ds2).1 = _
      rw [ih (stabStep s none) (by simp [hstep]) (by
          intro c2 hc2
          rw [hstep] at hc2 ⊢
          rw [List.getLast?_concat] at hc2
          exact Option.some_inj.mp hc2)
        (fun d hd => hall d (List.mem_cons_of_mem _ hd))]
      rw [hstep]
      simp [stabFrames, hstep]

theorem angle_profile_length {trig : Trig} {h R : ℕ} {fr : Frame}
    {angles : List ℕ} {row : List ℚ} {xi yi : ℤ}
    (hr : angle_profile trig h xi yi R fr angles = some row) :
    row.length = angles.length := by
  unfold angle_profile at hr
  exact optMap_length hr

theorem radius_profile_length {trig : Trig} {h : ℕ} {fr : Frame}
    {radii : List ℕ} {row : List ℚ} {xi yi : ℤ}
    (hr : radius_profile trig h xi yi fr radii = some row) :
    row.length = radii.length := by
  unfold radius_profile at hr
  exact optMap_length hr

theorem polar_frames_row_length {coords : List (ℕ × ℕ)}
    {profile : ℤ → ℤ → Frame → Option (List ℚ)} {frames : List Frame} {L : ℕ}
    (hp : ∀ xi yi fr row, profile xi yi fr = some row → row.length = L) :
    ∀ out, polar_frames coords profile frames = some out →
      ∀ row ∈ out, row.length = L := by
  intro out hout row hrow
  obtain ⟨p, _, hfp⟩ := optMap_mem hout hrow
  obtain ⟨xy, _, hprof⟩ := Option.bind_eq_some.mp hfp
  exact hp _ _ _ _ hprof

/-- C1: evaluation at the failing input.  `clipSkip` has three frames; the
detector finds circle (5, 6, 2) on frame 0, nothing (`None`) on frame 1, and
circle (9, 8, 2) on frame 2.  The claim (and `stabilization.py`, whose loop
does carry forward: `stabilization_carry_forward`) requires frame 1's estimate
to repeat frame 0's `(5, 6)`; `find_center_circle_pos` instead appends nothing
for the zero-detection frame, so only two coords exist for three frames and
the entry at index 1 is frame 2's circle, not frame 1's carried estimate. -/
theorem c1_missing_fallback_eval :
    find_center_circle_pos detectSkip clipSkip 1 = [(5, 6), (9, 8)] ∧
    (clipSkip.framesAt 1).length = 3 ∧
    detectSkip frameB = none ∧
    (find_center_circle_pos detectSkip clipSkip 1)[1]? ≠ some (5, 6) := by
  decide

/-- C2: on a frame with one or more detected circles, `find_center_circle_pos`
records exactly the last circle in detector output order (the loop variable is
overwritten at each earlier circle and a single append happens after the
loop), and in `stabilization.py` exactly that last circle becomes the tracking
state: the `coord` variable and `circle_coords[-1]`, the value a later
zero-detection fallback would reuse. -/
theorem c2_last_detection_selected (coords : List (ℕ × ℕ)) (s : StabState)
    (cs : List CircleEstimate) (hcs : cs ≠ []) :
    findCenterStep coords (some cs) =
      coords ++ [((cs.getLast hcs).x, (cs.getLast hcs).y)] ∧
    (stabStep s (some cs)).2 = cs.getLast hcs ∧
    (stabStep s (some cs)).1.getLast? = some (cs.getLast hcs) := by
  have hl : cs.getLast? = some (cs.getLast hcs) := List.getLast?_eq_getLast cs hcs
  refine ⟨?_, ?_, ?_⟩
  · simp only [findCenterStep, hl]
  · simp only [stabStep, List.getLastD_eq_getLast?, hl, Option.getD_some]
  · show (s.1 ++ cs).getLast? = some (cs.getLast hcs)
    rw [List.getLast?_append, hl]
    rfl

/-- C2 witness: concrete two-circle detector output; the selected estimate is
the second circle (4, 5, 6), not the first. -/
theorem c2_last_detection_selected_witness :
    findCenterStep [] (some [⟨1, 2, 3⟩, ⟨4, 5, 6⟩]) = [(4, 5)] ∧
    (stabStep ([], ⟨680, 630, 280⟩) (some [⟨1, 2, 3⟩, ⟨4, 5, 6⟩])).2 =
      ⟨4, 5, 6⟩ ∧
    (stabStep ([], ⟨680, 630, 280⟩) (some [⟨1, 2, 3⟩, ⟨4, 5, 6⟩])).1.getLast? =
      some ⟨4, 5, 6⟩ :=
  c2_last_detection_selected [] ([], ⟨680, 630, 280⟩) [⟨1, 2, 3⟩, ⟨4, 5, 6⟩]
    (by decide)

/-- C3 counterexample: at the reachable sample r = 1, i = 45 degrees (whose
float cosine is 0.7071067811865476), the code's x offset is int(0.7071...) = 0
(truncation toward zero) while the claim's nearest-integer rounding gives 1:
the code computes x_new = 100, the claimed formula 101. -/
theorem c3_round_cx :
    (sampleXY trigFortyFive 1000 100 200 1 45).1 = 100 ∧
    (100 : ℤ) + specRound ((1 : ℚ) * trigFortyFive.cos 45) = 101 := by
  have hc : ((1 : ℕ) : ℚ) * trigFortyFive.cos 45 =
      7071067811865476 / 10000000000000000 := by
    norm_num [trigFortyFive]
  constructor
  · show (100 : ℤ) + pythonInt (((1 : ℕ) : ℚ) * trigFortyFive.cos 45) = 100
    rw [hc, pythonInt_eq]
    norm_num
  · show (100 : ℤ) + specRound ((1 : ℚ) * trigFortyFive.cos 45) = 101
    have hc2 : (1 : ℚ) * trigFortyFive.cos 45 =
        7071067811865476 / 10000000000000000 := by
      norm_num [trigFortyFive]
    rw [hc2, specRound, round_eq]
    norm_num

/-- C3 (amended): profile sampling coordinates use Python int() truncation
toward zero, not nearest-integer rounding: the sampled x of every sample is
x + pythonInt (r cos i), and pythonInt is floor on nonnegative offsets and
ceiling on negative ones (they agree with nearest rounding only when the
fractional part is below one half in magnitude). -/
theorem c3_truncation_amended (trig : Trig) (h : ℕ) (x y : ℤ) (r i : ℕ) :
    (sampleXY trig h x y r i).1 = x + pythonInt ((r : ℚ) * trig.cos i) ∧
    pythonInt ((r : ℚ) * trig.cos i) =
      (if 0 ≤ (r : ℚ) * trig.cos i then ⌊(r : ℚ) * trig.cos i⌋
       else ⌈(r : ℚ) * trig.cos i⌉) ∧
    pythonInt ((r : ℚ) * trig.sin i) =
      (if 0 ≤ (r : ℚ) * trig.sin i then ⌊(r : ℚ) * trig.sin i⌋
       else ⌈(r : ℚ) * trig.sin i⌉) :=
  ⟨rfl, pythonInt_eq _, pythonInt_eq _⟩

/-- C4: the y sampling coordinate is clamped from above to h - 1, equivalently
it is min(y_new, h - 1): a y_new at or above the frame-0 height h becomes
h - 1 and any other value (including negative ones) passes unchanged; the x
coordinate is exactly the raw x + int(r cos i) with no clamp of any kind (no
width is even in scope in `sampleXY`, the sample computation shared by all
four profile functions). -/
theorem c4_clamp_only_y (trig : Trig) (h : ℕ) (x y : ℤ) (r i : ℕ) :
    (sampleXY trig h x y r i).1 = x + pythonInt ((r : ℚ) * trig.cos i) ∧
    (sampleXY trig h x y r i).2 =
      min (y + pythonInt ((r : ℚ) * trig.sin i)) ((h : ℤ) - 1) := by
  refine ⟨rfl, ?_⟩
  show (if (h : ℤ) ≤ y + pythonInt ((r : ℚ) * trig.sin i) then (h : ℤ) - 1
      else y + pythonInt ((r : ℚ) * trig.sin i)) = _
  rcases le_or_lt (h : ℤ) (y + pythonInt ((r : ℚ) * trig.sin i)) with hle | hlt
  · rw [if_pos hle, min_eq_right (by omega)]
  · rw [if_neg (not_le.mpr hlt), min_eq_left (by omega)]

/-- C5 (amended): for a sample coordinate i on an axis of length len, indexing
fails fast (IndexError, `none`) exactly when i ≥ len or i < -len; but for
-len ≤ i < 0 numpy silently wraps to position len + i on the opposite side of
the axis — it does not fail. -/
theorem c5_oob_wrap_amended (l : List ℚ) (i : ℤ) :
    (npGetZ l i = none ↔ ((l.length : ℤ) ≤ i ∨ i < -(l.length : ℤ))) ∧
    (i < 0 → -(l.length : ℤ) ≤ i → npGetZ l i = l[(i + l.length).toNat]?) := by
  constructor
  · unfold npGetZ
    by_cases h0 : 0 ≤ i
    · rw [if_pos h0]
      by_cases h1 : i < (l.length : ℤ)
      · rw [if_pos h1, List.getElem?_eq_getElem (by omega)]
        simp only [reduceCtorEq, false_iff]
        omega
      · rw [if_neg h1]
        simp only [true_iff]
        omega
    · rw [if_neg h0]
      by_cases h2 : -(l.length : ℤ) ≤ i
      · rw [if_pos h2, List.getElem?_eq_getElem (by omega)]
        simp only [reduceCtorEq, false_iff]
        omega
      · rw [if_neg h2]
        simp only [true_iff]
        omega
  · intro h1 h2
    unfold npGetZ
    rw [if_neg (by omega), if_pos h2]

/-- C5 witness: the wrapping branch of `c5_oob_wrap_amended` at the concrete
ten-element row and index -3: the read succeeds and yields position 7. -/
theorem c5_oob_wrap_witness : npGetZ rowTen (-3) = rowTen[(7 : ℕ)]? :=
  (c5_oob_wrap_amended rowTen (-3)).2 (by decide) (by decide)

theorem listMean_singleton (q : ℚ) : listMean [q] = q := by
  simp [listMean]

theorem optMap_congr {α β : Type} {f g : α → Option β} :
    ∀ {l : List α}, (∀ a ∈ l, f a = g a) → optMap f l = optMap g l := by
  intro l
  induction l with
  | nil => intro _; rfl
  | cons a as ih =>
    intro h
    simp only [optMap]
    rw [h a (List.mem_cons_self a as),
      ih (fun b hb => h b (List.mem_cons_of_mem a hb))]

theorem optMap_eq_map {α β : Type} {f : α → Option β} {g : α → β} :
    ∀ {l : List α}, (∀ a ∈ l, f a = some (g a)) → optMap f l = some (l.map g) := by
  intro l
  induction l with
  | nil => intro _; rfl
  | cons a as ih =>
    intro h
    simp only [optMap, List.map_cons]
    rw [h a (List.mem_cons_self a as),
      ih (fun b hb => h b (List.mem_cons_of_mem a hb))]

theorem angle_profile_radius2 (trig : Trig) (h : ℕ) (x y : ℤ) (fr : Frame)
    (angles : List ℕ) :
    angle_profile trig h x y 2 fr angles =
      optMap (fun i => (pixelAt fr (sampleXY trig h x y 1 i)).map listMean)
        angles := by
  unfold angle_profile
  apply optMap_congr
  intro i _
  show (optMap _ [1]).map listMean = _
  cases hp : (pixelAt fr (sampleXY trig h x y 1 i)).map listMean with
  | none => simp [optMap, hp]
  | some w => simp [optMap, hp, listMean_singleton]

theorem pythonInt_zero : pythonInt 0 = 0 := by
  rw [pythonInt_eq]
  norm_num

theorem pythonInt_neg_one : pythonInt (-1) = -1 := by
  rw [pythonInt_eq]
  norm_num
  rw [show ((-1 : ℚ)) = ((-1 : ℤ) : ℚ) by norm_num, Int.ceil_intCast]

theorem sampleXY_edge_180 : sampleXY trigEdge 1 0 0 1 180 = (-1, 0) := by
  have hc : pythonInt (trigEdge.cos 180) = -1 := by
    rw [show trigEdge.cos 180 = -1 from by norm_num [trigEdge]]
    exact pythonInt_neg_one
  have hs : pythonInt (trigEdge.sin 180) = 0 := by
    rw [show trigEdge.sin 180 = 0 from rfl]
    exact pythonInt_zero
  simp [sampleXY, hc, hs]

theorem sampleXY_edge_other (i : ℕ) (hi : i ≠ 180) :
    sampleXY trigEdge 1 0 0 1 i = (0, 0) := by
  have hc : pythonInt (trigEdge.cos i) = 0 := by
    rw [show trigEdge.cos i = 0 from by simp [trigEdge, hi]]
    exact pythonInt_zero
  have hs : pythonInt (trigEdge.sin i) = 0 := by
    rw [show trigEdge.sin i = 0 from rfl]
    exact pythonInt_zero
  simp [sampleXY, hc, hs]

theorem angle_profile_wide :
    angle_profile trigEdge 1 0 0 2 frameWide (List.range 360) =
      some rowWide360 := by
  rw [angle_profile_radius2,
    show rowWide360 =
      (List.range 360).map (fun i => if i = 180 then (3 : ℚ) else 1) from rfl]
  apply optMap_eq_map
  intro i _
  by_cases hi : i = 180
  · subst hi
    rw [sampleXY_edge_180,
      show pixelAt frameWide (-1, 0) = some [3] from rfl]
    simp [listMean_singleton]
  · rw [sampleXY_edge_other i hi,
      show pixelAt frameWide (0, 0) = some [1] from rfl]
    simp [listMean_singleton, hi]

/-- C5 counterexample: a full `find_angle_intensity` run in which every sample
at degree 180 computes x_new = -1, outside [0, width): the run does not fail
fast — it silently samples column 2, the opposite side of the 3-pixel-wide
frame (intensity 3), while all other degrees read column 0 (intensity 1). -/
theorem c5_wraps_cx :
    (sampleXY trigEdge 1 0 0 1 180).1 = -1 ∧
    find_angle_intensity detectEdge clipWide trigEdge 2 1 =
      some [rowWide360] := by
  constructor
  · rw [sampleXY_edge_180]
  · unfold find_angle_intensity polar_frames
    rw [show find_center_circle_pos detectEdge clipWide 1 = [(0, 0)] from rfl]
    show optMap _ [(0, frameWide)] = some [rowWide360]
    have hF : (([((0 : ℕ), (0 : ℕ))] : List (ℕ × ℕ))[(0 : ℕ)]?).bind
        (fun xy => angle_profile trigEdge clipWide.frame0.length (xy.1 : ℤ)
          (xy.2 : ℤ) 2 frameWide (List.range 360)) = some rowWide360 := by
      show angle_profile trigEdge clipWide.frame0.length 0 0 2 frameWide
          (List.range 360) = some rowWide360
      exact angle_profile_wide
    simp only [optMap, hF]

theorem sampleXY_sq (i : ℕ) : sampleXY trigZero 3 1 1 1 i = (1, 1) := by
  have hc : pythonInt (trigZero.cos i) = 0 := by
    rw [show trigZero.cos i = 0 from rfl]
    exact pythonInt_zero
  have hs : pythonInt (trigZero.sin i) = 0 := by
    rw [show trigZero.sin i = 0 from rfl]
    exact pythonInt_zero
  simp [sampleXY, hc, hs]

theorem find_angle_compressed_sq_eval :
    find_angle_intensity_compressed detectSq clipSq trigZero 2 7 1 =
      some [rowSq52] := by
  unfold find_angle_intensity_compressed polar_frames
  rw [show find_center_circle_pos detectSq clipSq 1 = [(1, 1)] from rfl]
  show optMap _ [(0, frameSq)] = some [rowSq52]
  have hF : (([((1 : ℕ), (1 : ℕ))] : List (ℕ × ℕ))[(0 : ℕ)]?).bind
      (fun xy => angle_profile trigZero clipSq.frame0.length (xy.1 : ℤ)
        (xy.2 : ℤ) 2 frameSq ((List.range 360).filter fun i => i % 7 == 0)) =
      some rowSq52 := by
    show angle_profile trigZero clipSq.frame0.length 1 1 2 frameSq
        ((List.range 360).filter fun i => i % 7 == 0) = some rowSq52
    rw [angle_profile_radius2,
      show rowSq52 = ((List.range 360).filter fun i => i % 7 == 0).map
        (fun _ => (2 : ℚ)) from rfl]
    apply optMap_eq_map
    intro i _
    show (pixelAt frameSq (sampleXY trigZero 3 1 1 1 i)).map listMean = some 2
    rw [sampleXY_sq i, show pixelAt frameSq (1, 1) = some [2] from rfl]
    simp [listMean_singleton]
  simp only [optMap, hF]

/-- C6 counterexample: with compress = 7 (not a divisor of 360) and maximum
radius R = 2, the compressed angular profile of a frame has 52 = ceil(360/7)
entries, while the claim's formula 360 // 7 gives 51. -/
theorem c6_angular_length_cx :
    ((find_angle_intensity_compressed detectSq clipSq trigZero 2 7 1).map
      fun out => out.map List.length) = some [52] ∧ (360 : ℕ) / 7 = 51 := by
  have hlen : rowSq52.length = 52 := by
    rw [show rowSq52 = ((List.range 360).filter fun i => i % 7 == 0).map
        (fun _ => (2 : ℚ)) from rfl,
      List.length_map, length_filter_mod_range 7 (by norm_num) 360]
  constructor
  · rw [find_angle_compressed_sq_eval]
    show some [rowSq52.length] = some [52]
    rw [hlen]
  · rfl

/-- C6 (amended): per-frame profile vector lengths: angular uncompressed 360;
angular compressed ceil(360/c) = (360 + c - 1) / c (which equals 360 // c only
when c divides 360); radial uncompressed R - 1; radial compressed
(R - 1) // c. -/
theorem c6_profile_lengths (detect : Frame → Option (List CircleEstimate))
    (clip : Clip) (trig : Trig) (R c fps : ℕ) (hc : 1 ≤ c) (hR : 2 ≤ R) :
    (∀ out, find_angle_intensity detect clip trig R fps = some out →
      ∀ row ∈ out, row.length = 360) ∧
    (∀ out, find_angle_intensity_compressed detect clip trig R c fps = some out →
      ∀ row ∈ out, row.length = (360 + c - 1) / c) ∧
    (∀ out, find_radius_intensity detect clip trig R fps = some out →
      ∀ row ∈ out, row.length = R - 1) ∧
    (∀ out, find_radius_intensity_compressed detect clip trig R c fps = some out →
      ∀ row ∈ out, row.length = (R - 1) / c) := by
  have hc0 : 0 < c := hc
  refine ⟨?_, ?_, ?_, ?_⟩
  · intro out hout
    unfold find_angle_intensity at hout
    exact @polar_frames_row_length _ _ _ 360
      (fun xi yi fr row2 hr => by rw [angle_profile_length hr, List.length_range])
      out hout
  · intro out hout
    unfold find_angle_intensity_compressed at hout
    exact @polar_frames_row_length _ _ _ ((360 + c - 1) / c)
      (fun xi yi fr row2 hr => by
        rw [angle_profile_length hr, length_filter_mod_range c hc0 360])
      out hout
  · intro out hout
    unfold find_radius_intensity at hout
    exact @polar_frames_row_length _ _ _ (R - 1)
      (fun xi yi fr row2 hr => by
        rw [radius_profile_length hr, List.length_range'])
      out hout
  · intro out hout
    unfold find_radius_intensity_compressed at hout
    exact @polar_frames_row_length _ _ _ ((R - 1) / c)
      (fun xi yi fr row2 hr => by
        rw [radius_profile_length hr, length_filter_mod_range1 c hc0 (R - 1)])
      out hout

/-- C6 witness: the compressed-angular conjunct of `c6_profile_lengths` at the
concrete clip `clipSq`, R = 2, compress = 7: the row indeed has
(360 + 7 - 1) / 7 = 52 entries. -/
theorem c6_profile_lengths_witness : rowSq52.length = (360 + 7 - 1) / 7 := by
  have h := (c6_profile_lengths detectSq clipSq trigZero 2 7 1 (by norm_num)
    (by norm_num)).2.1
  exact h [rowSq52] find_angle_compressed_sq_eval rowSq52
    (List.mem_singleton.mpr rfl)

/-- C7 counterexample: a one-frame run with zero detections writes zero rows
(the default estimate is used for the frame but never persisted), and a
one-frame run with two detected circles writes two rows: `circle_coords` does
not hold one row per processed frame. -/
theorem c7_rows_cx :
    (stabRun [none]).1 = [] ∧
    stabEstimates [none] = [⟨680, 630, 280⟩] ∧
    (stabRun [some [⟨1, 2, 3⟩, ⟨4, 5, 6⟩]]).1.length = 2 := by
  decide

/-- C7 (amended): `circle_coords` receives one row per detected circle on each
detection frame, plus one carried-forward row per zero-detection frame once a
row exists; in particular when the first frame has exactly one detection and
every later frame has exactly one detection or none, `circle_coords` is
exactly the per-frame estimate sequence: one row per frame, row k = frame k's
estimate, in temporal order. -/
theorem c7_rows_amended (c0 : CircleEstimate)
    (ds : List (Option (List CircleEstimate)))
    (h : ∀ d ∈ ds, (∃ c, d = some [c]) ∨ d = none) :
    (stabRun (some [c0] :: ds)).1 = stabEstimates (some [c0] :: ds) := by
  have hstep : stabStep ([], ⟨680, 630, 280⟩) (some [c0]) = ([c0], c0) := by
    simp [stabStep, List.getLastD_eq_getLast?]
  have h2 : ∀ c2, (([c0], c0) : StabState).1.getLast? = some c2 →
      (([c0], c0) : StabState).2 = c2 := by
    intro c2 hc2
    simpa using hc2
  show (stabProc (stabStep ([], ⟨680, 630, 280⟩) (some [c0])) ds).1 =
    stabEstimates (some [c0] :: ds)
  rw [hstep, stabProc_rows ds ([c0], c0) (by simp) h2 h]
  show [c0] ++ stabFrames ([c0], c0) ds =
    stabFrames ([], ⟨680, 630, 280⟩) (some [c0] :: ds)
  simp [stabFrames, hstep]

/-- C7 witness: a three-frame run (single detection, miss, single detection):
the persisted rows coincide with the per-frame estimates. -/
theorem c7_rows_amended_witness :
    (stabRun [some [⟨1, 2, 3⟩], none, some [⟨7, 8, 9⟩]]).1 =
      stabEstimates [some [⟨1, 2, 3⟩], none, some [⟨7, 8, 9⟩]] :=
  c7_rows_amended ⟨1, 2, 3⟩ [none, some [⟨7, 8, 9⟩]] (by
    intro d hd
    rcases List.mem_cons.mp hd with rfl | hd2
    · right
      rfl
    · left
      rcases List.mem_singleton.mp hd2 with rfl
      exact ⟨⟨7, 8, 9⟩, rfl⟩)

/-- C8: when the detector returns zero circles at frame 0 (so no prior
accepted estimate exists), the estimate used for frame 0 is exactly the
hardcoded default x = 680, y = 630, radius = 280. -/
theorem c8_default_frame0 (ds : List (Option (List CircleEstimate))) :
    (stabEstimates ((none : Option (List CircleEstimate)) :: ds))[0]? =
      some ⟨680, 630, 280⟩ := by
  simp [stabEstimates, stabFrames, stabStep]

/-- C9: compression of the row/column intensity profiles is a stride
subsample: the compressed per-frame profile has ceil(N/compress) entries and
entry k is exactly entry k*compress of the uncompressed per-frame profile
(`y_profile`/`x_profile` are the loop bodies of `find_xy_intensities`, their
compressed versions those of `find_xy_intensities_compressed`). -/
theorem c9_stride_subsample (fr : Frame) (c k : ℕ) (hc : 1 ≤ c) :
    (y_profile_compressed fr c).length = (fr.length + c - 1) / c ∧
    (x_profile_compressed fr c).length = ((fr.headD []).length + c - 1) / c ∧
    (y_profile_compressed fr c)[k]? = (y_profile fr)[k * c]? ∧
    (x_profile_compressed fr c)[k]? = (x_profile fr)[k * c]? := by
  have hc0 : 0 < c := hc
  refine ⟨?_, ?_, ?_, ?_⟩
  · unfold y_profile_compressed
    rw [List.length_map, length_filter_mod_range c hc0]
  · unfold x_profile_compressed
    rw [List.length_map, length_filter_mod_range c hc0]
  · unfold y_profile_compressed y_profile
    rw [filter_mod_range c hc0, List.map_map, List.getElem?_map,
      List.getElem?_map, getElem?_range_eq, getElem?_range_eq]
    by_cases hk : k * c < fr.length
    · rw [if_pos ((lt_ceil_div_iff hc0).mpr hk), if_pos hk]
      rfl
    · rw [if_neg (fun hcon => hk ((lt_ceil_div_iff hc0).mp hcon)), if_neg hk]
      rfl
  · unfold x_profile_compressed x_profile
    rw [filter_mod_range c hc0, List.map_map, List.getElem?_map,
      List.getElem?_map, getElem?_range_eq, getElem?_range_eq]
    by_cases hk : k * c < (fr.headD []).length
    · rw [if_pos ((lt_ceil_div_iff hc0).mpr hk), if_pos hk]
      rfl
    · rw [if_neg (fun hcon => hk ((lt_ceil_div_iff hc0).mp hcon)), if_neg hk]
      rfl

/-- C9 witness: the concrete 3-by-3 frame at compress = 2: the compressed row
profile has ceil(3/2) = 2 entries and its entry 1 is entry 2 of the
uncompressed profile. -/
theorem c9_stride_subsample_witness :
    (y_profile_compressed frameSq 2).length = (frameSq.length + 2 - 1) / 2 ∧
    (y_profile_compressed frameSq 2)[1]? = (y_profile frameSq)[1 * 2]? := by
  have h := c9_stride_subsample frameSq 2 1 (by norm_num)
  exact ⟨h.1, h.2.2.1⟩

/-- C10: the fps parameter has no influence on the outputs of find_RGB_Hues,
find_xy_intensities_compressed, find_angle_intensity and
find_radius_intensity: their loops run clip.iter_frames(fps=1) — and the polar
samplers take centers from find_center_circle_pos(filename, fps=1) — with the
rate hardcoded to 1, so any two fps arguments give identical outputs on every
input video. -/
theorem c10_fps_no_influence (clip : Clip) (trig : Trig)
    (detect : Frame → Option (List CircleEstimate)) (R c fps1 fps2 : ℕ) :
    find_RGB_Hues clip fps1 = find_RGB_Hues clip fps2 ∧
    find_xy_intensities_compressed clip c fps1 =
      find_xy_intensities_compressed clip c fps2 ∧
    find_angle_intensity detect clip trig R fps1 =
      find_angle_intensity detect clip trig R fps2 ∧
    find_radius_intensity detect clip trig R fps1 =
      find_radius_intensity detect clip trig R fps2 :=
  ⟨rfl, rfl, rfl, rfl⟩
